import Mathlib

/-!
Shallow embedding of the elvish compilation pass (`eval/compile.go`):
the compiler state (scope stack + capture tracker), the parse-tree node
types it consumes, the op tree it produces, and the recursive-descent
compiling functions, translated function by function from the source.

Go `map[string]Type` values are modelled as association lists with
insert-overwrite semantics (`frameInsert`), so each name occurs at most
once.  Go panics are modelled as an `Except` error channel with two
variants: contextual user errors (raised by `errorf`) and internal
panics (`panic("bad Redir type")`, `panic("bad PrimaryNode type …")`).
-/

namespace ElvishEval

/-- Runtime value-type tags (`Type` in the source, an interface).  The
compiler only ever tests whether a value is closure-typed
(`.(ClosureType)` assertion in `resolveCommand`), so a small closed set
of tags suffices. -/
inductive VType where
  | stringT
  | closureT
  | tableT
  | anyT
deriving DecidableEq, Repr

/-- A scope frame: `map[string]Type` as an association list with unique
names. -/
abbrev Frame := List (String × VType)

/-- Lookup in a frame (`scope[name]`, `nil` when absent). -/
def frameLookup : Frame → String → Option VType
  | [], _ => none
  | (m, u) :: f, n => if m = n then some u else frameLookup f n

/-- Map-style insert: `scope[name] = t` overwrites any existing
binding. -/
def frameInsert : Frame → String → VType → Frame
  | [], n, t => [(n, t)]
  | (m, u) :: f, n, t => if m = n then (n, t) :: f else (m, u) :: frameInsert f n t

/-- Map-style delete: `delete(scope, name)`. -/
def frameErase : Frame → String → Frame
  | [], _ => []
  | (m, u) :: f, n => if m = n then f else (m, u) :: frameErase f n

/-- The result of a builtin special form's own sub-compilation (`strOp`
in the source); opaque to the compiler core, modelled as a tag. -/
inductive StrOp where
  | mk (tag : String)
deriving DecidableEq, Repr

/-- Handle of a registered builtin function (`builtinFunc`); its
implementation is runtime-only, so it is opaque data here. -/
structure BuiltinFunc where
  tag : String
deriving DecidableEq, Repr

/-- Handle of a registered builtin special form (`builtinSpecial`).  Its
`compile` member is interpreted by `specialCompile` below; the
registry's contents are outside the compiler core, so we model the
specials that the spec's contract allows: a special that binds a
variable in the innermost frame (like a `var`/`set` form) and an
inert one. -/
inductive BuiltinSpecial where
  | bindVar (t : VType)
  | plain (tag : String)
deriving DecidableEq, Repr

/-- `commandType` constants from the source. -/
inductive CommandType where
  | builtinFunction
  | builtinSpecial
  | definedFunction
  | closure
  | external
deriving DecidableEq, Repr

/-- `commandResolution`: information known about a command.  Zero value
has `commandType = builtinFunction` (iota 0) and nil handles. -/
structure CommandResolution where
  commandType : CommandType := .builtinFunction
  builtinFunc : Option BuiltinFunc := none
  builtinSpecial : Option BuiltinSpecial := none
  specialOp : Option StrOp := none
deriving DecidableEq, Repr

/-- The package-level registries `builtinSpecials` and `builtinFuncs`
(read-only lookup tables for the duration of compilation). -/
structure Registries where
  builtinSpecials : List (String × BuiltinSpecial) := []
  builtinFuncs : List (String × BuiltinFunc) := []
deriving Repr

/-- Go map lookup with ok-flag, for the registries. -/
def assocLookup {α : Type} : List (String × α) → String → Option α
  | [], _ => none
  | (m, u) :: f, n => if m = n then some u else assocLookup f n

/-- `compilerEphemeral`: name/text for diagnostics, the scope stack and
the capture tracker.  The head of `scopes` is the innermost frame
(`scopes[len-1]` in the source); the last element is the root frame. -/
structure CState where
  name : String
  text : String
  scopes : List Frame
  enclosed : Frame
deriving DecidableEq, Repr

/-- `pushScope`: append an empty innermost frame. -/
def pushScope (st : CState) : CState :=
  { st with scopes := [] :: st.scopes }

/-- `popScope`: drop the innermost frame. -/
def popScope (st : CState) : CState :=
  { st with scopes := st.scopes.tail }

/-- `pushVar`: bind a name in the innermost frame. -/
def pushVar (st : CState) (name : String) (t : VType) : CState :=
  { st with scopes :=
      match st.scopes with
      | [] => []
      | f :: fs => frameInsert f name t :: fs }

/-- `popVar`: remove a binding from the innermost frame. -/
def popVar (st : CState) (name : String) : CState :=
  { st with scopes :=
      match st.scopes with
      | [] => []
      | f :: fs => frameErase f name :: fs }

/-- `hasVarOnThisScope`: check only the innermost frame. -/
def hasVarOnThisScope (st : CState) (name : String) : Bool :=
  match st.scopes with
  | [] => false
  | f :: _ => (frameLookup f name).isSome

/-- Modelled from the spec: the contextual error value produced by
`util.NewContextualError` (the `util` package is outside `src/`); it
carries `{name, text, byteOffset, message}` per §6 of the spec. -/
structure CtxError where
  name : String
  text : String
  pos : Nat
  msg : String
deriving DecidableEq, Repr

/-- The two panic classes of the compiler: contextual user errors
raised through `errorf`, and internal invariant panics (`panic(...)`
with a plain string). -/
inductive CompErr where
  | user (e : CtxError)
  | internalPanic (msg : String)
deriving DecidableEq, Repr

/-- `errorf`: build the contextual user error for position `p`. -/
def errorf (st : CState) (p : Nat) (msg : String) : CompErr :=
  .user ⟨st.name, st.text, p, msg⟩

/-! ### Parse-tree nodes (`parse` package), as used by the compiler -/

mutual

inductive ChunkNode where
  | mk (pos : Nat) (nodes : List PipelineNode)

inductive PipelineNode where
  | mk (pos : Nat) (nodes : List FormNode)

inductive FormNode where
  | mk (pos : Nat) (command : CompoundNode) (args : SpacedNode)
       (redirs : List Redir)

inductive Redir where
  | closeRedir (pos fd : Nat)
  | fdRedir (pos fd oldFd : Nat)
  | filenameRedir (pos fd flag : Nat) (filename : CompoundNode)
  | badRedir (pos fd : Nat)

inductive SpacedNode where
  | mk (pos : Nat) (nodes : List CompoundNode)

inductive CompoundNode where
  | mk (pos : Nat) (sigil : Char) (nodes : List SubscriptNode)

inductive SubscriptNode where
  | mk (left : PrimaryNode) (right : Option CompoundNode)

inductive PrimaryNode where
  | strP (pos : Nat) (text : String)
  | varP (pos : Nat) (text : String)
  | tableP (pos : Nat) (list : List CompoundNode)
           (dict : List (CompoundNode × CompoundNode))
  | closureP (pos : Nat) (chunk : ChunkNode)
  | listP (pos : Nat) (spaced : SpacedNode)
  | chanCaptureP (pos : Nat) (pipeline : PipelineNode)
  | statusCaptureP (pos : Nat) (pipeline : PipelineNode)
  | bad (typ : Nat) (pos : Nat)

end

/-- `parse.NoSigil`: the no-sigil marker rune. -/
def NoSigil : Char := Char.ofNat 0

/-- `Redir.Fd()`. -/
def Redir.fd : Redir → Nat
  | .closeRedir _ fd => fd
  | .fdRedir _ fd _ => fd
  | .filenameRedir _ fd _ _ => fd
  | .badRedir _ fd => fd

/-- `Redir.Pos`. -/
def Redir.pos : Redir → Nat
  | .closeRedir p _ => p
  | .fdRedir p _ _ => p
  | .filenameRedir p _ _ _ => p
  | .badRedir p _ => p

def ChunkNode.nodes : ChunkNode → List PipelineNode
  | .mk _ ns => ns

def CompoundNode.pos : CompoundNode → Nat
  | .mk p _ _ => p

def PrimaryNode.pos : PrimaryNode → Nat
  | .strP p _ => p
  | .varP p _ => p
  | .tableP p _ _ => p
  | .closureP p _ => p
  | .listP p _ => p
  | .chanCaptureP p _ => p
  | .statusCaptureP p _ => p
  | .bad _ p => p

/-! ### The op tree

The op combinators (`combineChunk`, `combineClosure`, `combinePipeline`,
`combineForm`, `combineSpaced`, `combineCompound`, `combineChanCapture`,
`makeString`, `makeVar`'s read op, `combineTable`, `combineSubscript`)
live outside `src/`; per §2 of the spec they are pure constructors that
assemble the executable representation from child ops plus resolved
metadata, so each is modelled as a constructor.  A Go `nil` entry of the
port table is `none`; a `nil` `tlist` (builtin-special forms) is
`none`. -/

mutual

inductive ValuesOp where
  | chunk (ops : List ValuesOp)
  | closure (ops : List ValuesOp) (enclosed : Frame)
  | pipeline (ops : List StateUpdatesOp) (pos : Nat)
  | spaced (ops : List ValuesOp)
  | compound (ops : List ValuesOp)
  | chanCapture (op : ValuesOp)
  | str (s : String)
  | varOp (name : String) (pos : Nat)
  | table (list : ValuesOp) (keys vals : List ValuesOp) (pos : Nat)
  | subscript (left right : ValuesOp) (lpos rpos : Nat)

inductive StateUpdatesOp where
  | form (cmd : ValuesOp) (tlist : Option ValuesOp)
         (ports : List (Option PortOp)) (res : CommandResolution)
         (pos : Nat)

inductive PortOp where
  | closeR
  | fdR (oldFd : Nat)
  | filenameR (fnameOp : ValuesOp) (flag : Nat) (pos : Nat)

end

/-! ### Variable and command resolution -/

/-- The scope-walk inside `ResolveVar`: search frames from the
innermost outward, returning the depth (0 = innermost, matching
`thisScope - i` in the source) and the type of the first match. -/
def lookupScopes : List Frame → String → Option (Nat × VType)
  | [], _ => none
  | f :: fs, n =>
    match frameLookup f n with
    | some t => some (0, t)
    | none => (lookupScopes fs n).map (fun p => (p.1 + 1, p.2))

/-- `ResolveVar`: find a variable in current or upper scopes; when the
match is in a frame strictly below the innermost one (depth > 0, i.e.
`i < thisScope`), record `(name, type)` in the capture tracker
`enclosed` as a side effect. -/
def ResolveVar (name : String) (st : CState) : Option VType × CState :=
  match lookupScopes st.scopes name with
  | some (d, t) =>
    (some t,
     if 0 < d then { st with enclosed := frameInsert st.enclosed name t }
     else st)
  | none => (none, st)

/-- `mustResolveVar`: `ResolveVar`, panicking with the contextual
`undefined variable $name` error when the variable is nonexistent. -/
def mustResolveVar (name : String) (p : Nat) (st : CState) :
    Except CompErr (VType × CState) :=
  match ResolveVar name st with
  | (some t, st) => .ok (t, st)
  | (none, st) => .error (errorf st p ("undefined variable $" ++ name))

/-- `resolveCommand`: classify a command name, in order: defined
function when `fn-<name>` resolves to a closure-typed value, else
builtin special, else builtin function, else external.  The
`ResolveVar` call happens unconditionally, so its capture side effect
happens in every branch. -/
def resolveCommand (R : Registries) (name : String) (st : CState) :
    CommandResolution × CState :=
  let (r, st) := ResolveVar ("fn-" ++ name) st
  match r with
  | some .closureT => ({ commandType := .definedFunction }, st)
  | _ =>
    match assocLookup R.builtinSpecials name with
    | some bi =>
      ({ commandType := .builtinSpecial, builtinSpecial := some bi }, st)
    | none =>
      match assocLookup R.builtinFuncs name with
      | some bi =>
        ({ commandType := .builtinFunction, builtinFunc := some bi }, st)
      | none => ({ commandType := .external }, st)

/-- `makeVar` — modelled from the spec: the variable-read op
constructor lives outside `src/`; per §4.3 (Primary — variable) it
resolves the name via the scope stack (recording capture as needed),
errors if unresolved, and produces an op that reads the binding at
runtime. -/
def makeVar (name : String) (p : Nat) (st : CState) :
    Except CompErr (ValuesOp × CState) :=
  match mustResolveVar name p st with
  | .ok (_, st) => .ok (.varOp name p, st)
  | .error e => .error e

/-- The name of the first argument of a form, when it is a bare word
(used by the modelled `var`-style special form). -/
def firstArgName : FormNode → Option String
  | .mk _ _ (.mk _ (.mk _ _ [.mk (.strP _ text) none] :: _)) _ => some text
  | _ => none

/-- Modelled from the spec: the special-form registration contract
(§6) hands the raw form node and the active compile unit to the
special's own sub-compiler, which may bind variables (like `var`/`set`)
and returns its own sub-op.  `bindVar t` binds the form's first
argument name to `t` in the innermost frame; `plain` does nothing. -/
def specialCompile : BuiltinSpecial → FormNode → CState →
    Except CompErr (StrOp × CState)
  | .bindVar t, fn, st =>
    match firstArgName fn with
    | some n => .ok (.mk "var", pushVar st n t)
    | none => .ok (.mk "var", st)
  | .plain tag, _, st => .ok (.mk tag, st)

/-- The merge loop in `compilePrimary`'s `ClosurePrimary` case: each
name captured by the inner closure is re-offered to the current unit's
capture tracker unless it is bound on the current innermost frame. -/
def mergeEnclosed (st : CState) (enc : Frame) : CState :=
  enc.foldl
    (fun st p =>
      if hasVarOnThisScope st p.1 then st
      else { st with enclosed := frameInsert st.enclosed p.1 p.2 })
    st

/-- The port-table sizing loop in `compileForm`:
`if nports < rd.Fd()+1 { nports = rd.Fd()+1 }`. -/
def nportsOf (redirs : List Redir) : Nat :=
  redirs.foldl (fun n rd => if n < rd.fd + 1 then rd.fd + 1 else n) 0

/-- The `switch command.Typ` in `compileForm`: a string command goes
through `resolveCommand`, a closure command is tagged
`commandClosure`, anything else is the user error
`command must be a string or closure`. -/
def resolveFormCommand (R : Registries) (cmd : PrimaryNode) (cpos : Nat)
    (st : CState) : Except CompErr (CommandResolution × CState) :=
  match cmd with
  | .strP _ text => .ok (resolveCommand R text st)
  | .closureP _ _ => .ok ({ commandType := .closure }, st)
  | _ => .error (errorf st cpos "command must be a string or closure")

mutual

/-- `compileChunk`: compile each pipeline, combine. -/
def compileChunk (R : Registries) (cn : ChunkNode) (st : CState) :
    Except CompErr (ValuesOp × CState) :=
  match cn with
  | .mk _ nodes =>
    match compilePipelines R nodes st with
    | .ok (ops, st) => .ok (.chunk ops, st)
    | .error e => .error e

/-- The `for` loop of `compileChunk`/`compileClosure` over pipeline
nodes. -/
def compilePipelines (R : Registries) (pns : List PipelineNode)
    (st : CState) : Except CompErr (List ValuesOp × CState) :=
  match pns with
  | [] => .ok ([], st)
  | pn :: pns =>
    match compilePipeline R pn st with
    | .ok (op, st) =>
      match compilePipelines R pns st with
      | .ok (ops, st) => .ok (op :: ops, st)
      | .error e => .error e
    | .error e => .error e

/-- `compileClosure`: push a frame, compile the body pipelines, hand
out the capture tracker's current contents as the closure's capture
set, reset the tracker, pop the frame. -/
def compileClosure (R : Registries) (cn : ChunkNode) (st : CState) :
    Except CompErr ((ValuesOp × Frame) × CState) :=
  match cn with
  | .mk _ nodes =>
    match compilePipelines R nodes (pushScope st) with
    | .ok (ops, st) =>
      let enclosed := st.enclosed
      let st := popScope { st with enclosed := [] }
      .ok ((.closure ops enclosed, enclosed), st)
    | .error e => .error e

/-- `compilePipeline`: compile each form, combine. -/
def compilePipeline (R : Registries) (pn : PipelineNode) (st : CState) :
    Except CompErr (ValuesOp × CState) :=
  match pn with
  | .mk pos nodes =>
    match compileForms R nodes st with
    | .ok (ops, st) => .ok (.pipeline ops pos, st)
    | .error e => .error e

/-- The `for` loop of `compilePipeline` over form nodes. -/
def compileForms (R : Registries) (fns : List FormNode) (st : CState) :
    Except CompErr (List StateUpdatesOp × CState) :=
  match fns with
  | [] => .ok ([], st)
  | fn :: fns =>
    match compileForm R fn st with
    | .ok (op, st) =>
      match compileForms R fns st with
      | .ok (ops, st) => .ok (op :: ops, st)
      | .error e => .error e
    | .error e => .error e

/-- `compileForm`: check the command word's shape, compile the command
primary, classify the command, build the port table from the
redirections, then either let a builtin special compile its own sub-op
or compile the argument list. -/
def compileForm (R : Registries) (fn : FormNode) (st : CState) :
    Except CompErr (StateUpdatesOp × CState) :=
  match fn with
  | .mk pos (.mk cpos csigil cnodes) args redirs =>
    match cnodes with
    | [.mk cmd none] =>
      match compilePrimary R cmd st with
      | .ok (cmdOp, st) =>
        match resolveFormCommand R cmd cpos st with
        | .ok (resolution, st) =>
          match compileRedirs R redirs
              (List.replicate (nportsOf redirs) none) st with
          | .ok (ports, st) =>
            if resolution.commandType = .builtinSpecial then
              match resolution.builtinSpecial with
              | some bi =>
                match specialCompile bi
                    (.mk pos (.mk cpos csigil cnodes) args redirs) st with
                | .ok (sop, st) =>
                  .ok (.form cmdOp none ports
                        { resolution with specialOp := some sop } pos, st)
                | .error e => .error e
              | none => .error (.internalPanic "nil builtinSpecial")
            else
              match compileSpaced R args st with
              | .ok (tlist, st) =>
                .ok (.form cmdOp (some tlist) ports resolution pos, st)
              | .error e => .error e
          | .error e => .error e
        | .error e => .error e
      | .error e => .error e
    | _ => .error (errorf st cpos "command must be a string or closure")

/-- The redirection loop of `compileForm`: compile every redirection
in order, writing each port op into the table slot of its file
descriptor (later redirections overwrite earlier ones on the same
descriptor). -/
def compileRedirs (R : Registries) (rds : List Redir)
    (tbl : List (Option PortOp)) (st : CState) :
    Except CompErr (List (Option PortOp) × CState) :=
  match rds with
  | [] => .ok (tbl, st)
  | rd :: rds =>
    match compileRedir R rd st with
    | .ok (p, st) => compileRedirs R rds (tbl.set rd.fd (some p)) st
    | .error e => .error e

/-- `compileRedir`: close, fd-duplicate, or filename redirection; any
other variant is the internal panic `bad Redir type`. -/
def compileRedir (R : Registries) (rd : Redir) (st : CState) :
    Except CompErr (PortOp × CState) :=
  match rd with
  | .closeRedir _ _ => .ok (.closeR, st)
  | .fdRedir _ _ oldFd => .ok (.fdR oldFd, st)
  | .filenameRedir pos _ flag fname =>
    match compileCompound R fname st with
    | .ok (op, st) => .ok (.filenameR op flag pos, st)
    | .error e => .error e
  | .badRedir _ _ => .error (.internalPanic "bad Redir type")

/-- The loop of `compileCompounds` over compound nodes (the source's
`compileCompounds` then combines the resulting ops with
`combineSpaced`, done at each call site below). -/
def compileCompounds (R : Registries) (tns : List CompoundNode)
    (st : CState) : Except CompErr (List ValuesOp × CState) :=
  match tns with
  | [] => .ok ([], st)
  | tn :: tns =>
    match compileCompound R tn st with
    | .ok (op, st) =>
      match compileCompounds R tns st with
      | .ok (ops, st) => .ok (op :: ops, st)
      | .error e => .error e
    | .error e => .error e

/-- `compileSpaced`. -/
def compileSpaced (R : Registries) (ln : SpacedNode) (st : CState) :
    Except CompErr (ValuesOp × CState) :=
  match ln with
  | .mk _ nodes =>
    match compileCompounds R nodes st with
    | .ok (ops, st) => .ok (.spaced ops, st)
    | .error e => .error e

/-- `compileCompound`: concatenate the sub-expressions; a non-`NoSigil`
sigil additionally wraps the result as the argument list of an
implicit one-form pipeline invoking the command named by the sigil,
with the pipeline's output channel-captured. -/
def compileCompound (R : Registries) (tn : CompoundNode) (st : CState) :
    Except CompErr (ValuesOp × CState) :=
  match tn with
  | .mk pos sigil nodes =>
    match compileSubscripts R nodes st with
    | .ok (ops, st) =>
      let op := ValuesOp.compound ops
      if sigil = NoSigil then .ok (op, st)
      else
        let cmd := String.singleton sigil
        let (cr, st) := resolveCommand R cmd st
        let fop := StateUpdatesOp.form (.str cmd) (some op) [] cr pos
        .ok (.chanCapture (.pipeline [fop] pos), st)
    | .error e => .error e

/-- The subscript loop of `compileCompound`. -/
def compileSubscripts (R : Registries) (sns : List SubscriptNode)
    (st : CState) : Except CompErr (List ValuesOp × CState) :=
  match sns with
  | [] => .ok ([], st)
  | sn :: sns =>
    match compileSubscript R sn st with
    | .ok (op, st) =>
      match compileSubscripts R sns st with
      | .ok (ops, st) => .ok (op :: ops, st)
      | .error e => .error e
    | .error e => .error e

/-- `compileSubscript`: no right part degenerates to the primary;
otherwise combine left primary and right compound into an indexing
op. -/
def compileSubscript (R : Registries) (sn : SubscriptNode) (st : CState) :
    Except CompErr (ValuesOp × CState) :=
  match sn with
  | .mk left none => compilePrimary R left st
  | .mk left (some rc) =>
    match compilePrimary R left st with
    | .ok (lop, st) =>
      match compileCompound R rc st with
      | .ok (rop, st) => .ok (.subscript lop rop left.pos rc.pos, st)
      | .error e => .error e
    | .error e => .error e

/-- The key/value loop of `compilePrimary`'s table case (key then
value, pair by pair). -/
def compilePairs (R : Registries)
    (ps : List (CompoundNode × CompoundNode)) (st : CState) :
    Except CompErr ((List ValuesOp × List ValuesOp) × CState) :=
  match ps with
  | [] => .ok (([], []), st)
  | (k, v) :: ps =>
    match compileCompound R k st with
    | .ok (kop, st) =>
      match compileCompound R v st with
      | .ok (vop, st) =>
        match compilePairs R ps st with
        | .ok ((kops, vops), st) => .ok ((kop :: kops, vop :: vops), st)
        | .error e => .error e
      | .error e => .error e
    | .error e => .error e

/-- `compilePrimary`: one case per recognized primary kind; an
unrecognized kind is the internal panic `bad PrimaryNode type`.  The
closure case re-offers the inner closure's captured names to the
current unit's capture tracker unless locally shadowed. -/
def compilePrimary (R : Registries) (fn : PrimaryNode) (st : CState) :
    Except CompErr (ValuesOp × CState) :=
  match fn with
  | .strP _ text => .ok (.str text, st)
  | .varP pos name => makeVar name pos st
  | .tableP pos list dict =>
    match compileCompounds R list st with
    | .ok (listOps, st) =>
      match compilePairs R dict st with
      | .ok ((keys, vals), st) =>
        .ok (.table (.spaced listOps) keys vals pos, st)
      | .error e => .error e
    | .error e => .error e
  | .closureP _ chunk =>
    match compileClosure R chunk st with
    | .ok ((op, enclosed), st) => .ok (op, mergeEnclosed st enclosed)
    | .error e => .error e
  | .listP _ spaced => compileSpaced R spaced st
  | .chanCaptureP _ pl =>
    match compilePipeline R pl st with
    | .ok (op, st) => .ok (.chanCapture op, st)
    | .error e => .error e
  | .statusCaptureP _ pl => compilePipeline R pl st
  | .bad typ _ =>
    .error (.internalPanic ("bad PrimaryNode type " ++ toString typ))

end

/-- What a call of `Compile` can come to: a compiled op, a returned
user error, or an unrecovered internal panic that terminates
compilation unconditionally. -/
inductive CompileResult where
  | ok (op : ValuesOp)
  | userErr (e : CtxError)
  | crashed (msg : String)

/-- `Compile`: start an ephemeral compile state seeded with the root
scope, compile the chunk, and stop.  The deferred recover is modelled
from the spec (`util.Recover` is outside `src/`): per §7 a contextual
user error propagates to the caller as the returned error value, while
an internal invariant panic is not converted into a user-facing error
and terminates compilation unconditionally (`crashed`). -/
def Compile (R : Registries) (name text : String) (n : ChunkNode)
    (scope : Frame) : CompileResult :=
  let st : CState := ⟨name, text, [scope], []⟩
  match compileChunk R n st with
  | .ok (op, _) => .ok op
  | .error (.user e) => .userErr e
  | .error (.internalPanic m) => .crashed m

/-! ### Concrete program builders (test scaffolding for the claims) -/

/-- A bare-word compound (no sigil, single string primary). -/
def word (pos : Nat) (s : String) : CompoundNode :=
  .mk pos NoSigil [.mk (.strP pos s) none]

/-- A `$name` variable-reference compound. -/
def varWord (pos : Nat) (s : String) : CompoundNode :=
  .mk pos NoSigil [.mk (.varP pos s) none]

/-- A compound wrapping a single primary. -/
def primWord (pos : Nat) (p : PrimaryNode) : CompoundNode :=
  .mk pos NoSigil [.mk p none]

/-- A form `cmd args... redirs...` with a bare-word command. -/
def simpleForm (pos : Nat) (cmd : String) (args : List CompoundNode)
    (redirs : List Redir) : FormNode :=
  .mk pos (word pos cmd) (.mk pos args) redirs

/-- A chunk holding one single-form pipeline per listed form. -/
def chunkOfForms (fs : List FormNode) : ChunkNode :=
  .mk 0 (fs.map fun f => .mk 0 [f])

/-- The empty registries. -/
def R0 : Registries := {}

def FormNode.redirs : FormNode → List Redir
  | .mk _ _ _ rds => rds

/-- The maximum explicitly redirected file descriptor of a redirection
list (0 when there is none). -/
def maxExplicitFd (rds : List Redir) : Nat :=
  rds.foldl (fun m rd => if m < rd.fd then rd.fd else m) 0

/-- Sequential compilation of a redirection list without the port
table: the same compile-time effects (errors, captures) in the same
order as the loop in `compileForm`, collecting the port ops. -/
def compileRedirList (R : Registries) (rds : List Redir) (st : CState) :
    Except CompErr (List PortOp × CState) :=
  match rds with
  | [] => .ok ([], st)
  | rd :: rds =>
    match compileRedir R rd st with
    | .ok (p, st) =>
      match compileRedirList R rds st with
      | .ok (ps, st) => .ok (p :: ps, st)
      | .error e => .error e
    | .error e => .error e

/-- Write a (fd, port op) list into a port table in order; later pairs
overwrite earlier ones on the same descriptor. -/
def applyPorts (tbl : List (Option PortOp)) (ps : List (Nat × PortOp)) :
    List (Option PortOp) :=
  ps.foldl (fun t p => t.set p.1 (some p.2)) tbl

/-- The port op of the last pair carrying the given descriptor. -/
def lastPort : List (Nat × PortOp) → Nat → Option PortOp
  | [], _ => none
  | (fd0, p) :: ps, fd =>
    match lastPort ps fd with
    | some q => some q
    | none => if fd0 = fd then some p else none

/-! ### Result-tree extractors (shared by several concrete claims)

The concrete programs of the claims put a closure literal as an
argument of a top-level one-form pipeline; these pull out a closure's
compiled body and capture set from the surrounding op tree. -/

/-- The closure op compiled from the sole closure-literal argument of
the first top-level form: its body ops and capture set. -/
def topClosure : CompileResult → Option (List ValuesOp × Frame)
  | .ok (.chunk (.pipeline
      [.form _ (some (.spaced (.compound [.closure ops enc] :: _))) _ _ _]
      _ :: _)) => some (ops, enc)
  | _ => none

/-- Inside a closure body (a list of pipeline ops): the closure op
found as argument `j` of the single form of pipeline `i`. -/
def argClosure (ops : List ValuesOp) (i j : Nat) :
    Option (List ValuesOp × Frame) :=
  match ops[i]? with
  | some (.pipeline [.form _ (some (.spaced args)) _ _ _] _) =>
    match args[j]? with
    | some (.compound [.closure ops' enc]) => some (ops', enc)
    | _ => none
  | _ => none

/-! ### Closure-free syntax (no closure literal anywhere in a node) -/

mutual

def chunkCF : ChunkNode → Bool
  | .mk _ ns => pipesCF ns

def pipesCF : List PipelineNode → Bool
  | [] => true
  | p :: ps => pipeCF p && pipesCF ps

def pipeCF : PipelineNode → Bool
  | .mk _ fs => formsCF fs

def formsCF : List FormNode → Bool
  | [] => true
  | f :: fs => formCF f && formsCF fs

def formCF : FormNode → Bool
  | .mk _ cmd args rds => compoundCF cmd && spacedCF args && redirsCF rds

def redirsCF : List Redir → Bool
  | [] => true
  | rd :: rds => redirCF rd && redirsCF rds

def redirCF : Redir → Bool
  | .filenameRedir _ _ _ fname => compoundCF fname
  | _ => true

def spacedCF : SpacedNode → Bool
  | .mk _ ns => compoundsCF ns

def compoundsCF : List CompoundNode → Bool
  | [] => true
  | c :: cs => compoundCF c && compoundsCF cs

def compoundCF : CompoundNode → Bool
  | .mk _ _ ns => subsCF ns

def subsCF : List SubscriptNode → Bool
  | [] => true
  | s :: ss => subCF s && subsCF ss

def subCF : SubscriptNode → Bool
  | .mk l none => primCF l
  | .mk l (some c) => primCF l && compoundCF c

def pairsCF : List (CompoundNode × CompoundNode) → Bool
  | [] => true
  | (k, v) :: ps => compoundCF k && compoundCF v && pairsCF ps

def primCF : PrimaryNode → Bool
  | .strP _ _ => true
  | .varP _ _ => true
  | .tableP _ list dict => compoundsCF list && pairsCF dict
  | .closureP _ _ => false
  | .listP _ sp => spacedCF sp
  | .chanCaptureP _ pl => pipeCF pl
  | .statusCaptureP _ pl => pipeCF pl
  | .bad _ _ => true

end

/-- Registries with a single `var`-style builtin special that binds its
first argument name to `stringT`. -/
def Rvar : Registries :=
  { builtinSpecials := [("var", .bindVar .stringT)] }

/-! ### Concrete inputs used by the claims' counterexamples and
witnesses -/

/-- A neutral compile state: one empty root frame, empty tracker. -/
def st0 : CState := ⟨"n", "t", [[]], []⟩

/-- An inner closure with an empty body (`{ }`). -/
def c1InnerCl : PrimaryNode := .closureP 2 (.mk 2 [])

/-- Body of the outer closure of `c1Prog`: one form `c $x { }` — it
references `$x` (resolved in the root frame, hence captured) before
the empty inner closure is compiled. -/
def c1OuterBody : ChunkNode :=
  chunkOfForms [simpleForm 1 "c" [varWord 1 "x", primWord 1 c1InnerCl] []]

/-- `c { c $x { } }`: an outer closure whose body captures `x` and
then contains an empty inner closure. -/
def c1Prog : ChunkNode :=
  chunkOfForms [simpleForm 0 "c" [primWord 0 (.closureP 1 c1OuterBody)] []]

/-- Registries for the C2 witness: `s` registered both as a builtin
special and as a builtin function; `f` registered as a builtin
function. -/
def c2R : Registries :=
  { builtinSpecials := [("s", .plain "sp")],
    builtinFuncs := [("s", ⟨"bfS"⟩), ("f", ⟨"bfF"⟩)] }

/-- State for the C2 witness: `fn-f` bound to a closure-typed value. -/
def c2St : CState := ⟨"n", "t", [[("fn-f", VType.closureT)]], []⟩

/-- The innermost closure of the C3 programs: `{ c $x }`. -/
def c3Inner : PrimaryNode :=
  .closureP 2 (chunkOfForms [simpleForm 2 "c" [varWord 2 "x"] []])

/-- `c { c { c $x } }`: doubly nested closures, `x` bound only in the
root scope. -/
def c3ProgA : ChunkNode :=
  chunkOfForms [simpleForm 0 "c"
    [primWord 0 (.closureP 1
      (chunkOfForms [simpleForm 1 "c" [primWord 1 c3Inner] []]))] []]

/-- `c { var x; c { c $x } }`: as `c3ProgA` but the middle closure
binds `x` in its own frame (via the `var` special) before the inner
closure. -/
def c3ProgB : ChunkNode :=
  chunkOfForms [simpleForm 0 "c"
    [primWord 0 (.closureP 1 (chunkOfForms
      [simpleForm 1 "var" [word 1 "x"] [],
       simpleForm 1 "c" [primWord 1 c3Inner] []]))] []]

/-- `c { c $x; var x }`: the closure references `$x` (bound in the
root) before locally binding `x`. -/
def c4ProgA : ChunkNode :=
  chunkOfForms [simpleForm 0 "c"
    [primWord 0 (.closureP 1 (chunkOfForms
      [simpleForm 1 "c" [varWord 1 "x"] [],
       simpleForm 2 "var" [word 2 "x"] []]))] []]

/-- `c { var x; c $x }`: the closure locally binds `x` before the
reference. -/
def c4ProgB : ChunkNode :=
  chunkOfForms [simpleForm 0 "c"
    [primWord 0 (.closureP 1 (chunkOfForms
      [simpleForm 1 "var" [word 1 "x"] [],
       simpleForm 2 "c" [varWord 2 "x"] []]))] []]

/-- A chunk whose single form has an unrecognized primary node in
command position. -/
def c5BadPrimProg (typ pos : Nat) : ChunkNode :=
  chunkOfForms
    [.mk 0 (.mk 0 NoSigil [.mk (.bad typ pos) none]) (.mk 0 []) []]

/-- A chunk whose single form carries a malformed redirection
variant. -/
def c5BadRedirProg (rp fd : Nat) : ChunkNode :=
  chunkOfForms [simpleForm 0 "c" [] [.badRedir rp fd]]

/-- A form with a single redirection on fd 2 only. -/
def c6Form : FormNode := simpleForm 0 "c" [] [.closeRedir 0 2]

/-- A chunk whose first form references `$vname` and whose second
pipeline holds an unrecognized primary node: if compilation continued
past the failed reference, the result would be an internal panic
instead of the user error. -/
def c7Prog (vname : String) (pos : Nat) : ChunkNode :=
  chunkOfForms
    [simpleForm 0 "c" [varWord pos vname] [],
     simpleForm 9 "c" [primWord 9 (.bad 77 9)] []]

/-- Subscript list of the bare word `foo`. -/
def c8Nodes : List SubscriptNode := [.mk (.strP 0 "foo") none]

/-- Two redirections naming the same descriptor 1: a close redirection
then an fd-duplicating one. -/
def c9Rds : List Redir := [.closeRedir 0 1, .fdRedir 3 1 5]

/-- State for the C10 witness: `fn-foo` bound — to a non-closure
value — in a frame strictly below the innermost one. -/
def c10St : CState := ⟨"n", "t", [[], [("fn-foo", VType.stringT)]], []⟩

/-! ### Frame and capture-tracker lemmas -/

theorem frameLookup_frameInsert (f : Frame) (n : String) (t : VType)
    (m : String) :
    frameLookup (frameInsert f n t) m =
      if n = m then some t else frameLookup f m := by
  induction f with
  | nil =>
    by_cases h : n = m <;> simp [frameInsert, frameLookup, h]
  | cons p f ih =>
    obtain ⟨a, u⟩ := p
    by_cases han : a = n
    · subst han
      by_cases ham : a = m <;> simp [frameInsert, frameLookup, ham]
    · by_cases ham : a = m
      · subst ham
        have : ¬ n = a := fun h => han h.symm
        simp [frameInsert, frameLookup, han, this]
      · simp [frameInsert, frameLookup, han, ham, ih]

/-- `e` is capture-wise below `e'`: every name present in `e` is
present in `e'`. -/
def frameLE (e e' : Frame) : Prop :=
  ∀ n, (frameLookup e n).isSome → (frameLookup e' n).isSome

theorem frameLE_refl (e : Frame) : frameLE e e := fun _ h => h

theorem frameLE_trans {a b c : Frame} (h1 : frameLE a b)
    (h2 : frameLE b c) : frameLE a c :=
  fun n h => h2 n (h1 n h)

theorem frameLE_insert (e : Frame) (n : String) (t : VType) :
    frameLE e (frameInsert e n t) := by
  intro m hm
  rw [frameLookup_frameInsert]
  by_cases h : n = m <;> simp [h, hm]

/-- `ResolveVar` only ever inserts into the capture tracker. -/
theorem ResolveVar_encl_mono (name : String) (st : CState) :
    frameLE st.enclosed (ResolveVar name st).2.enclosed := by
  unfold ResolveVar
  cases h : lookupScopes st.scopes name with
  | none => exact frameLE_refl _
  | some p =>
    obtain ⟨d, t⟩ := p
    by_cases hd : 0 < d
    · simpa [hd] using frameLE_insert st.enclosed name t
    · simpa [hd] using frameLE_refl st.enclosed

/-- `resolveCommand` ends in the state that its `ResolveVar` call
produced, whatever branch is taken. -/
theorem resolveCommand_snd (R : Registries) (name : String)
    (st : CState) :
    (resolveCommand R name st).2 = (ResolveVar ("fn-" ++ name) st).2 := by
  unfold resolveCommand
  cases h : ResolveVar ("fn-" ++ name) st with
  | mk r st2 =>
    cases r with
    | none =>
      cases assocLookup R.builtinSpecials name <;>
        cases assocLookup R.builtinFuncs name <;> simp
    | some t =>
      cases t <;>
        (try (cases assocLookup R.builtinSpecials name <;>
          cases assocLookup R.builtinFuncs name)) <;> simp

theorem resolveCommand_encl_mono (R : Registries) (name : String)
    (st : CState) :
    frameLE st.enclosed (resolveCommand R name st).2.enclosed := by
  rw [resolveCommand_snd]
  exact ResolveVar_encl_mono _ _

/-- `mustResolveVar` succeeds in its `ResolveVar` call's state. -/
theorem mustResolveVar_encl_mono (name : String) (p : Nat) (st : CState)
    (t : VType) (st' : CState)
    (h : mustResolveVar name p st = .ok (t, st')) :
    frameLE st.enclosed st'.enclosed := by
  unfold mustResolveVar at h
  cases hr : ResolveVar name st with
  | mk r st1 =>
    rw [hr] at h
    cases r with
    | none => simp at h
    | some u =>
      simp only [Except.ok.injEq, Prod.mk.injEq] at h
      obtain ⟨-, h2⟩ := h
      subst h2
      have := ResolveVar_encl_mono name st
      rwa [hr] at this

theorem makeVar_encl_mono (name : String) (p : Nat) (st : CState)
    (op : ValuesOp) (st' : CState)
    (h : makeVar name p st = .ok (op, st')) :
    frameLE st.enclosed st'.enclosed := by
  unfold makeVar at h
  cases hm : mustResolveVar name p st with
  | error e => rw [hm] at h; simp at h
  | ok v =>
    obtain ⟨t, st1⟩ := v
    rw [hm] at h
    simp only [Except.ok.injEq, Prod.mk.injEq] at h
    obtain ⟨-, h2⟩ := h
    subst h2
    exact mustResolveVar_encl_mono name p st t st1 hm

/-- `pushVar` does not touch the capture tracker. -/
theorem pushVar_enclosed (st : CState) (n : String) (t : VType) :
    (pushVar st n t).enclosed = st.enclosed := rfl

/-- A special form's own sub-compilation does not touch the capture
tracker. -/
theorem specialCompile_enclosed (bi : BuiltinSpecial) (fn : FormNode)
    (st : CState) (sop : StrOp) (st' : CState)
    (h : specialCompile bi fn st = .ok (sop, st')) :
    st'.enclosed = st.enclosed := by
  cases bi with
  | bindVar t =>
    cases hf : firstArgName fn with
    | none =>
      simp only [specialCompile, hf, Except.ok.injEq, Prod.mk.injEq] at h
      obtain ⟨-, h2⟩ := h; subst h2; rfl
    | some n =>
      simp only [specialCompile, hf, Except.ok.injEq, Prod.mk.injEq] at h
      obtain ⟨-, h2⟩ := h; subst h2; rfl
  | plain tag =>
    simp only [specialCompile, Except.ok.injEq, Prod.mk.injEq] at h
    obtain ⟨-, h2⟩ := h; subst h2; rfl

/-- `resolveFormCommand` only moves the capture tracker forward. -/
theorem resolveFormCommand_encl_mono (R : Registries)
    (cmd : PrimaryNode) (cpos : Nat) (st : CState)
    (cr : CommandResolution) (st' : CState)
    (h : resolveFormCommand R cmd cpos st = .ok (cr, st')) :
    frameLE st.enclosed st'.enclosed := by
  cases cmd <;> simp only [resolveFormCommand] at h
  case strP pos text =>
    simp only [Except.ok.injEq] at h
    have h2 : (resolveCommand R text st).2 = st' := by
      rw [h]
    rw [← h2]
    exact resolveCommand_encl_mono R text st
  case closureP pos chunk =>
    simp only [Except.ok.injEq, Prod.mk.injEq] at h
    obtain ⟨-, h2⟩ := h; subst h2; exact frameLE_refl _
  all_goals simp at h

/-! ### Capture-tracker monotonicity over closure-free syntax

Compilation of closure-free syntax only ever inserts into the capture
tracker (`ResolveVar`'s side effect); the only operation that removes
names from it is the reset inside `compileClosure`. -/

mutual

theorem monoChunk (R : Registries) (cn : ChunkNode) (st : CState)
    (op : ValuesOp) (st' : CState) (hcf : chunkCF cn = true)
    (hc : compileChunk R cn st = .ok (op, st')) :
    frameLE st.enclosed st'.enclosed := by
  obtain ⟨pos, nodes⟩ := cn
  simp only [compileChunk] at hc
  cases h1 : compilePipelines R nodes st with
  | error e => rw [h1] at hc; simp at hc
  | ok v =>
    obtain ⟨ops1, st1⟩ := v
    rw [h1] at hc
    simp only [Except.ok.injEq, Prod.mk.injEq] at hc
    obtain ⟨-, h2⟩ := hc
    subst h2
    exact monoPipes R nodes st ops1 st1 (by simpa [chunkCF] using hcf) h1

theorem monoPipes (R : Registries) (pns : List PipelineNode)
    (st : CState) (ops : List ValuesOp) (st' : CState)
    (hcf : pipesCF pns = true)
    (hc : compilePipelines R pns st = .ok (ops, st')) :
    frameLE st.enclosed st'.enclosed := by
  cases pns with
  | nil =>
    simp only [compilePipelines, Except.ok.injEq, Prod.mk.injEq] at hc
    obtain ⟨-, h2⟩ := hc; subst h2; exact frameLE_refl _
  | cons pn pns =>
    simp only [compilePipelines] at hc
    cases h1 : compilePipeline R pn st with
    | error e => rw [h1] at hc; simp at hc
    | ok v =>
      obtain ⟨op1, st1⟩ := v
      rw [h1] at hc; dsimp only at hc
      cases h2 : compilePipelines R pns st1 with
      | error e => rw [h2] at hc; simp at hc
      | ok w =>
        obtain ⟨ops2, st2⟩ := w
        rw [h2] at hc
        simp only [Except.ok.injEq, Prod.mk.injEq] at hc
        obtain ⟨-, h3⟩ := hc; subst h3
        obtain ⟨hcf1, hcf2⟩ : pipeCF pn = true ∧ pipesCF pns = true := by
          simpa [pipesCF, Bool.and_eq_true] using hcf
        exact frameLE_trans (monoPipe R pn st op1 st1 hcf1 h1)
          (monoPipes R pns st1 ops2 st2 hcf2 h2)

theorem monoPipe (R : Registries) (pn : PipelineNode) (st : CState)
    (op : ValuesOp) (st' : CState) (hcf : pipeCF pn = true)
    (hc : compilePipeline R pn st = .ok (op, st')) :
    frameLE st.enclosed st'.enclosed := by
  obtain ⟨pos, nodes⟩ := pn
  simp only [compilePipeline] at hc
  cases h1 : compileForms R nodes st with
  | error e => rw [h1] at hc; simp at hc
  | ok v =>
    obtain ⟨ops1, st1⟩ := v
    rw [h1] at hc
    simp only [Except.ok.injEq, Prod.mk.injEq] at hc
    obtain ⟨-, h2⟩ := hc
    subst h2
    exact monoForms R nodes st ops1 st1 (by simpa [pipeCF] using hcf) h1

theorem monoForms (R : Registries) (fns : List FormNode) (st : CState)
    (ops : List StateUpdatesOp) (st' : CState)
    (hcf : formsCF fns = true)
    (hc : compileForms R fns st = .ok (ops, st')) :
    frameLE st.enclosed st'.enclosed := by
  cases fns with
  | nil =>
    simp only [compileForms, Except.ok.injEq, Prod.mk.injEq] at hc
    obtain ⟨-, h2⟩ := hc; subst h2; exact frameLE_refl _
  | cons fn fns =>
    simp only [compileForms] at hc
    cases h1 : compileForm R fn st with
    | error e => rw [h1] at hc; simp at hc
    | ok v =>
      obtain ⟨op1, st1⟩ := v
      rw [h1] at hc; dsimp only at hc
      cases h2 : compileForms R fns st1 with
      | error e => rw [h2] at hc; simp at hc
      | ok w =>
        obtain ⟨ops2, st2⟩ := w
        rw [h2] at hc
        simp only [Except.ok.injEq, Prod.mk.injEq] at hc
        obtain ⟨-, h3⟩ := hc; subst h3
        obtain ⟨hcf1, hcf2⟩ : formCF fn = true ∧ formsCF fns = true := by
          simpa [formsCF, Bool.and_eq_true] using hcf
        exact frameLE_trans (monoForm R fn st op1 st1 hcf1 h1)
          (monoForms R fns st1 ops2 st2 hcf2 h2)

theorem monoForm (R : Registries) (fn : FormNode) (st : CState)
    (op : StateUpdatesOp) (st' : CState) (hcf : formCF fn = true)
    (hc : compileForm R fn st = .ok (op, st')) :
    frameLE st.enclosed st'.enclosed := by
  obtain ⟨pos, cmdC, args, redirs⟩ := fn
  obtain ⟨cpos, csigil, cnodes⟩ := cmdC
  cases cnodes with
  | nil => simp [compileForm] at hc
  | cons s rest =>
  obtain ⟨left, right⟩ := s
  cases right with
  | some rc => simp [compileForm] at hc
  | none =>
  cases rest with
  | cons s2 rest2 => simp [compileForm] at hc
  | nil =>
    obtain ⟨⟨hcfp, hcfa⟩, hcfr⟩ :
        (primCF left = true ∧ spacedCF args = true) ∧
          redirsCF redirs = true := by
      simpa [formCF, compoundCF, subsCF, subCF, Bool.and_eq_true]
        using hcf
    simp only [compileForm] at hc
    cases h1 : compilePrimary R left st with
    | error e => rw [h1] at hc; simp at hc
    | ok v =>
      obtain ⟨cmdOp, st1⟩ := v
      rw [h1] at hc; dsimp only at hc
      cases h2 : resolveFormCommand R left cpos st1 with
      | error e => rw [h2] at hc; simp at hc
      | ok w =>
        obtain ⟨resolution, st2⟩ := w
        rw [h2] at hc; dsimp only at hc
        cases h3 : compileRedirs R redirs
            (List.replicate (nportsOf redirs) none) st2 with
        | error e => rw [h3] at hc; simp at hc
        | ok x =>
          obtain ⟨ports, st3⟩ := x
          rw [h3] at hc; dsimp only at hc
          have le3 : frameLE st.enclosed st3.enclosed :=
            frameLE_trans (monoPrim R left st cmdOp st1 hcfp h1)
              (frameLE_trans
                (resolveFormCommand_encl_mono R left cpos st1
                  resolution st2 h2)
                (monoRedirs R redirs
                  (List.replicate (nportsOf redirs) none) st2 ports st3
                  hcfr h3))
          by_cases hb : resolution.commandType = .builtinSpecial
          · rw [if_pos hb] at hc
            cases h4 : resolution.builtinSpecial with
            | none => rw [h4] at hc; simp at hc
            | some bi =>
              rw [h4] at hc; dsimp only at hc
              cases h5 : specialCompile bi
                  (.mk pos (.mk cpos csigil [SubscriptNode.mk left none])
                    args redirs) st3 with
              | error e => rw [h5] at hc; simp at hc
              | ok y =>
                obtain ⟨sop, st4⟩ := y
                rw [h5] at hc
                simp only [Except.ok.injEq, Prod.mk.injEq] at hc
                obtain ⟨-, h6⟩ := hc; subst h6
                have he : st4.enclosed = st3.enclosed :=
                  specialCompile_enclosed bi _ st3 sop st4 h5
                rw [he]
                exact le3
          · rw [if_neg hb] at hc
            cases h6 : compileSpaced R args st3 with
            | error e => rw [h6] at hc; simp at hc
            | ok y =>
              obtain ⟨tl, st4⟩ := y
              rw [h6] at hc
              simp only [Except.ok.injEq, Prod.mk.injEq] at hc
              obtain ⟨-, h7⟩ := hc; subst h7
              exact frameLE_trans le3
                (monoSpaced R args st3 tl st4 hcfa h6)

theorem monoRedirs (R : Registries) (rds : List Redir)
    (tbl : List (Option PortOp)) (st : CState)
    (tbl' : List (Option PortOp)) (st' : CState)
    (hcf : redirsCF rds = true)
    (hc : compileRedirs R rds tbl st = .ok (tbl', st')) :
    frameLE st.enclosed st'.enclosed := by
  cases rds with
  | nil =>
    simp only [compileRedirs, Except.ok.injEq, Prod.mk.injEq] at hc
    obtain ⟨-, h2⟩ := hc; subst h2; exact frameLE_refl _
  | cons rd rds =>
    simp only [compileRedirs] at hc
    cases h1 : compileRedir R rd st with
    | error e => rw [h1] at hc; simp at hc
    | ok v =>
      obtain ⟨p, st1⟩ := v
      rw [h1] at hc; dsimp only at hc
      obtain ⟨hcf1, hcf2⟩ : redirCF rd = true ∧ redirsCF rds = true := by
        simpa [redirsCF, Bool.and_eq_true] using hcf
      exact frameLE_trans (monoRedir R rd st p st1 hcf1 h1)
        (monoRedirs R rds (tbl.set rd.fd (some p)) st1 tbl' st' hcf2 hc)

theorem monoRedir (R : Registries) (rd : Redir) (st : CState)
    (p : PortOp) (st' : CState) (hcf : redirCF rd = true)
    (hc : compileRedir R rd st = .ok (p, st')) :
    frameLE st.enclosed st'.enclosed := by
  cases rd with
  | closeRedir pos fd =>
    simp only [compileRedir, Except.ok.injEq, Prod.mk.injEq] at hc
    obtain ⟨-, h2⟩ := hc; subst h2; exact frameLE_refl _
  | fdRedir pos fd oldFd =>
    simp only [compileRedir, Except.ok.injEq, Prod.mk.injEq] at hc
    obtain ⟨-, h2⟩ := hc; subst h2; exact frameLE_refl _
  | badRedir pos fd => simp [compileRedir] at hc
  | filenameRedir pos fd flag fname =>
    simp only [compileRedir] at hc
    cases h1 : compileCompound R fname st with
    | error e => rw [h1] at hc; simp at hc
    | ok v =>
      obtain ⟨fop, st1⟩ := v
      rw [h1] at hc
      simp only [Except.ok.injEq, Prod.mk.injEq] at hc
      obtain ⟨-, h2⟩ := hc; subst h2
      exact monoCompound R fname st fop st1 (by simpa [redirCF] using hcf) h1

theorem monoCompounds (R : Registries) (tns : List CompoundNode)
    (st : CState) (ops : List ValuesOp) (st' : CState)
    (hcf : compoundsCF tns = true)
    (hc : compileCompounds R tns st = .ok (ops, st')) :
    frameLE st.enclosed st'.enclosed := by
  cases tns with
  | nil =>
    simp only [compileCompounds, Except.ok.injEq, Prod.mk.injEq] at hc
    obtain ⟨-, h2⟩ := hc; subst h2; exact frameLE_refl _
  | cons tn tns =>
    simp only [compileCompounds] at hc
    cases h1 : compileCompound R tn st with
    | error e => rw [h1] at hc; simp at hc
    | ok v =>
      obtain ⟨op1, st1⟩ := v
      rw [h1] at hc; dsimp only at hc
      cases h2 : compileCompounds R tns st1 with
      | error e => rw [h2] at hc; simp at hc
      | ok w =>
        obtain ⟨ops2, st2⟩ := w
        rw [h2] at hc
        simp only [Except.ok.injEq, Prod.mk.injEq] at hc
        obtain ⟨-, h3⟩ := hc; subst h3
        obtain ⟨hcf1, hcf2⟩ :
            compoundCF tn = true ∧ compoundsCF tns = true := by
          simpa [compoundsCF, Bool.and_eq_true] using hcf
        exact frameLE_trans (monoCompound R tn st op1 st1 hcf1 h1)
          (monoCompounds R tns st1 ops2 st2 hcf2 h2)

theorem monoSpaced (R : Registries) (ln : SpacedNode) (st : CState)
    (op : ValuesOp) (st' : CState) (hcf : spacedCF ln = true)
    (hc : compileSpaced R ln st = .ok (op, st')) :
    frameLE st.enclosed st'.enclosed := by
  obtain ⟨pos, nodes⟩ := ln
  simp only [compileSpaced] at hc
  cases h1 : compileCompounds R nodes st with
  | error e => rw [h1] at hc; simp at hc
  | ok v =>
    obtain ⟨ops1, st1⟩ := v
    rw [h1] at hc
    simp only [Except.ok.injEq, Prod.mk.injEq] at hc
    obtain ⟨-, h2⟩ := hc; subst h2
    exact monoCompounds R nodes st ops1 st1
      (by simpa [spacedCF] using hcf) h1

theorem monoCompound (R : Registries) (tn : CompoundNode) (st : CState)
    (op : ValuesOp) (st' : CState) (hcf : compoundCF tn = true)
    (hc : compileCompound R tn st = .ok (op, st')) :
    frameLE st.enclosed st'.enclosed := by
  obtain ⟨pos, sigil, nodes⟩ := tn
  simp only [compileCompound] at hc
  cases h1 : compileSubscripts R nodes st with
  | error e => rw [h1] at hc; simp at hc
  | ok v =>
    obtain ⟨ops1, st1⟩ := v
    rw [h1] at hc; dsimp only at hc
    have le1 : frameLE st.enclosed st1.enclosed :=
      monoSubs R nodes st ops1 st1 (by simpa [compoundCF] using hcf) h1
    by_cases hs : sigil = NoSigil
    · rw [if_pos hs] at hc
      simp only [Except.ok.injEq, Prod.mk.injEq] at hc
      obtain ⟨-, h2⟩ := hc; subst h2; exact le1
    · rw [if_neg hs] at hc
      cases h2 : resolveCommand R (String.singleton sigil) st1 with
      | mk cr st2 =>
        rw [h2] at hc
        simp only [Except.ok.injEq, Prod.mk.injEq] at hc
        obtain ⟨-, h3⟩ := hc; subst h3
        have le2 := resolveCommand_encl_mono R (String.singleton sigil) st1
        rw [h2] at le2
        exact frameLE_trans le1 le2

theorem monoSubs (R : Registries) (sns : List SubscriptNode)
    (st : CState) (ops : List ValuesOp) (st' : CState)
    (hcf : subsCF sns = true)
    (hc : compileSubscripts R sns st = .ok (ops, st')) :
    frameLE st.enclosed st'.enclosed := by
  cases sns with
  | nil =>
    simp only [compileSubscripts, Except.ok.injEq, Prod.mk.injEq] at hc
    obtain ⟨-, h2⟩ := hc; subst h2; exact frameLE_refl _
  | cons sn sns =>
    simp only [compileSubscripts] at hc
    cases h1 : compileSubscript R sn st with
    | error e => rw [h1] at hc; simp at hc
    | ok v =>
      obtain ⟨op1, st1⟩ := v
      rw [h1] at hc; dsimp only at hc
      cases h2 : compileSubscripts R sns st1 with
      | error e => rw [h2] at hc; simp at hc
      | ok w =>
        obtain ⟨ops2, st2⟩ := w
        rw [h2] at hc
        simp only [Except.ok.injEq, Prod.mk.injEq] at hc
        obtain ⟨-, h3⟩ := hc; subst h3
        obtain ⟨hcf1, hcf2⟩ : subCF sn = true ∧ subsCF sns = true := by
          simpa [subsCF, Bool.and_eq_true] using hcf
        exact frameLE_trans (monoSub R sn st op1 st1 hcf1 h1)
          (monoSubs R sns st1 ops2 st2 hcf2 h2)

theorem monoSub (R : Registries) (sn : SubscriptNode) (st : CState)
    (op : ValuesOp) (st' : CState) (hcf : subCF sn = true)
    (hc : compileSubscript R sn st = .ok (op, st')) :
    frameLE st.enclosed st'.enclosed := by
  obtain ⟨left, right⟩ := sn
  cases right with
  | none =>
    simp only [compileSubscript] at hc
    exact monoPrim R left st op st' (by simpa [subCF] using hcf) hc
  | some rc =>
    simp only [compileSubscript] at hc
    obtain ⟨hcf1, hcf2⟩ : primCF left = true ∧ compoundCF rc = true := by
      simpa [subCF, Bool.and_eq_true] using hcf
    cases h1 : compilePrimary R left st with
    | error e => rw [h1] at hc; simp at hc
    | ok v =>
      obtain ⟨lop, st1⟩ := v
      rw [h1] at hc; dsimp only at hc
      cases h2 : compileCompound R rc st1 with
      | error e => rw [h2] at hc; simp at hc
      | ok w =>
        obtain ⟨rop, st2⟩ := w
        rw [h2] at hc
        simp only [Except.ok.injEq, Prod.mk.injEq] at hc
        obtain ⟨-, h3⟩ := hc; subst h3
        exact frameLE_trans (monoPrim R left st lop st1 hcf1 h1)
          (monoCompound R rc st1 rop st2 hcf2 h2)

theorem monoPairs (R : Registries)
    (ps : List (CompoundNode × CompoundNode)) (st : CState)
    (kv : List ValuesOp × List ValuesOp) (st' : CState)
    (hcf : pairsCF ps = true)
    (hc : compilePairs R ps st = .ok (kv, st')) :
    frameLE st.enclosed st'.enclosed := by
  cases ps with
  | nil =>
    simp only [compilePairs, Except.ok.injEq, Prod.mk.injEq] at hc
    obtain ⟨-, h2⟩ := hc; subst h2; exact frameLE_refl _
  | cons p ps =>
    obtain ⟨k, v⟩ := p
    simp only [compilePairs] at hc
    obtain ⟨hcf1, hcf2, hcf3⟩ :
        compoundCF k = true ∧ compoundCF v = true ∧ pairsCF ps = true := by
      simpa [pairsCF, Bool.and_eq_true, and_assoc] using hcf
    cases h1 : compileCompound R k st with
    | error e => rw [h1] at hc; simp at hc
    | ok w1 =>
      obtain ⟨kop, st1⟩ := w1
      rw [h1] at hc; dsimp only at hc
      cases h2 : compileCompound R v st1 with
      | error e => rw [h2] at hc; simp at hc
      | ok w2 =>
        obtain ⟨vop, st2⟩ := w2
        rw [h2] at hc; dsimp only at hc
        cases h3 : compilePairs R ps st2 with
        | error e => rw [h3] at hc; simp at hc
        | ok w3 =>
          obtain ⟨kvs, st3⟩ := w3
          obtain ⟨kops, vops⟩ := kvs
          rw [h3] at hc
          simp only [Except.ok.injEq, Prod.mk.injEq] at hc
          obtain ⟨-, h4⟩ := hc; subst h4
          exact frameLE_trans (monoCompound R k st kop st1 hcf1 h1)
            (frameLE_trans (monoCompound R v st1 vop st2 hcf2 h2)
              (monoPairs R ps st2 (kops, vops) st3 hcf3 h3))

theorem monoPrim (R : Registries) (fn : PrimaryNode) (st : CState)
    (op : ValuesOp) (st' : CState) (hcf : primCF fn = true)
    (hc : compilePrimary R fn st = .ok (op, st')) :
    frameLE st.enclosed st'.enclosed := by
  cases fn with
  | strP pos text =>
    simp only [compilePrimary, Except.ok.injEq, Prod.mk.injEq] at hc
    obtain ⟨-, h2⟩ := hc; subst h2; exact frameLE_refl _
  | varP pos name =>
    simp only [compilePrimary] at hc
    exact makeVar_encl_mono name pos st op st' hc
  | tableP pos list dict =>
    simp only [compilePrimary] at hc
    obtain ⟨hcf1, hcf2⟩ :
        compoundsCF list = true ∧ pairsCF dict = true := by
      simpa [primCF, Bool.and_eq_true] using hcf
    cases h1 : compileCompounds R list st with
    | error e => rw [h1] at hc; simp at hc
    | ok v =>
      obtain ⟨listOps, st1⟩ := v
      rw [h1] at hc; dsimp only at hc
      cases h2 : compilePairs R dict st1 with
      | error e => rw [h2] at hc; simp at hc
      | ok w =>
        obtain ⟨kv, st2⟩ := w
        obtain ⟨keys, vals⟩ := kv
        rw [h2] at hc
        simp only [Except.ok.injEq, Prod.mk.injEq] at hc
        obtain ⟨-, h3⟩ := hc; subst h3
        exact frameLE_trans (monoCompounds R list st listOps st1 hcf1 h1)
          (monoPairs R dict st1 (keys, vals) st2 hcf2 h2)
  | closureP pos chunk => simp [primCF] at hcf
  | listP pos spaced =>
    simp only [compilePrimary] at hc
    exact monoSpaced R spaced st op st' (by simpa [primCF] using hcf) hc
  | chanCaptureP pos pl =>
    simp only [compilePrimary] at hc
    cases h1 : compilePipeline R pl st with
    | error e => rw [h1] at hc; simp at hc
    | ok v =>
      obtain ⟨op1, st1⟩ := v
      rw [h1] at hc
      simp only [Except.ok.injEq, Prod.mk.injEq] at hc
      obtain ⟨-, h2⟩ := hc; subst h2
      exact monoPipe R pl st op1 st1 (by simpa [primCF] using hcf) h1
  | statusCaptureP pos pl =>
    simp only [compilePrimary] at hc
    exact monoPipe R pl st op st' (by simpa [primCF] using hcf) hc
  | bad typ pos => simp [compilePrimary] at hc

end

/-! ### Port-table lemmas -/

theorem nports_shift (rds : List Redir) (m : Nat) :
    rds.foldl (fun n rd => if n < rd.fd + 1 then rd.fd + 1 else n) (m + 1) =
      rds.foldl (fun n rd => if n < rd.fd then rd.fd else n) m + 1 := by
  induction rds generalizing m with
  | nil => simp
  | cons rd rds ih =>
    have hstep : (if m + 1 < rd.fd + 1 then rd.fd + 1 else m + 1) =
        (if m < rd.fd then rd.fd else m) + 1 := by
      by_cases h : m < rd.fd <;> simp [h]
    simp only [List.foldl_cons]
    rw [hstep, ih]

/-- The port-table sizing loop computes 0 for no redirections and
(max explicit fd + 1) otherwise. -/
theorem nportsOf_eq (rds : List Redir) :
    nportsOf rds = if rds.isEmpty then 0 else maxExplicitFd rds + 1 := by
  cases rds with
  | nil => simp [nportsOf]
  | cons rd rds =>
    have h0 : (if (0 : Nat) < rd.fd + 1 then rd.fd + 1 else 0) = rd.fd + 1 := by
      simp
    have h0m : (if (0 : Nat) < rd.fd then rd.fd else 0) = rd.fd := by
      by_cases h : 0 < rd.fd
      · simp [h]
      · simp [h]; omega
    show List.foldl _ (if (0:Nat) < rd.fd + 1 then rd.fd + 1 else 0) rds = _
    rw [h0, nports_shift]
    simp only [List.isEmpty_cons, Bool.false_eq_true, if_false]
    show _ = List.foldl _ (if (0:Nat) < rd.fd then rd.fd else 0) rds + 1
    rw [h0m]

/-- The redirection loop preserves the port table's length. -/
theorem compileRedirs_length (R : Registries) (rds : List Redir)
    (tbl : List (Option PortOp)) (st : CState)
    (tbl' : List (Option PortOp)) (st' : CState)
    (h : compileRedirs R rds tbl st = .ok (tbl', st')) :
    tbl'.length = tbl.length := by
  induction rds generalizing tbl st with
  | nil =>
    simp only [compileRedirs, Except.ok.injEq, Prod.mk.injEq] at h
    obtain ⟨h1, -⟩ := h; rw [← h1]
  | cons rd rds ih =>
    simp only [compileRedirs] at h
    cases h1 : compileRedir R rd st with
    | error e => rw [h1] at h; simp at h
    | ok v =>
      obtain ⟨p, st1⟩ := v
      rw [h1] at h; dsimp only at h
      have := ih (tbl.set rd.fd (some p)) st1 h
      simpa using this

/-- A table slot whose descriptor no redirection names is left exactly
as it was. -/
theorem compileRedirs_untouched (R : Registries) (rds : List Redir)
    (tbl : List (Option PortOp)) (st : CState)
    (tbl' : List (Option PortOp)) (st' : CState) (i : Nat)
    (h : compileRedirs R rds tbl st = .ok (tbl', st'))
    (hi : ∀ rd ∈ rds, rd.fd ≠ i) :
    tbl'[i]? = tbl[i]? := by
  induction rds generalizing tbl st with
  | nil =>
    simp only [compileRedirs, Except.ok.injEq, Prod.mk.injEq] at h
    obtain ⟨h1, -⟩ := h; rw [← h1]
  | cons rd rds ih =>
    simp only [compileRedirs] at h
    cases h1 : compileRedir R rd st with
    | error e => rw [h1] at h; simp at h
    | ok v =>
      obtain ⟨p, st1⟩ := v
      rw [h1] at h; dsimp only at h
      have hne : rd.fd ≠ i := hi rd (List.mem_cons_self rd rds)
      have hrest : ∀ rd2 ∈ rds, rd2.fd ≠ i :=
        fun rd2 hm => hi rd2 (List.mem_cons_of_mem rd hm)
      rw [ih (tbl.set rd.fd (some p)) st1 h hrest]
      exact List.getElem?_set_ne hne

/-- The redirection loop equals sequentially compiling every
redirection (same errors, same final compile state) and then writing
the resulting (fd, port op) pairs into the table in order. -/
theorem compileRedirs_as_list (R : Registries) (rds : List Redir)
    (tbl : List (Option PortOp)) (st : CState) :
    compileRedirs R rds tbl st =
      match compileRedirList R rds st with
      | .ok (ops, st') =>
        .ok (applyPorts tbl ((rds.map Redir.fd).zip ops), st')
      | .error e => .error e := by
  induction rds generalizing tbl st with
  | nil => simp [compileRedirs, compileRedirList, applyPorts]
  | cons rd rds ih =>
    simp only [compileRedirs, compileRedirList]
    cases h1 : compileRedir R rd st with
    | error e => simp
    | ok v =>
      obtain ⟨p, st1⟩ := v
      dsimp only
      rw [ih]
      cases h2 : compileRedirList R rds st1 with
      | error e => simp
      | ok w =>
        obtain ⟨ops, st2⟩ := w
        simp [applyPorts]

/-- Writing pairs into a table in order leaves, on every in-range
slot, the op of the last pair naming that slot (and the old content
when no pair names it). -/
theorem applyPorts_last (ps : List (Nat × PortOp))
    (tbl : List (Option PortOp)) (i : Nat) (hi : i < tbl.length) :
    (applyPorts tbl ps)[i]? =
      match lastPort ps i with
      | some p => some (some p)
      | none => tbl[i]? := by
  induction ps generalizing tbl with
  | nil => simp [applyPorts, lastPort]
  | cons q ps ih =>
    obtain ⟨fd0, p⟩ := q
    have hstep : applyPorts tbl ((fd0, p) :: ps) =
        applyPorts (tbl.set fd0 (some p)) ps := rfl
    rw [hstep, ih (tbl.set fd0 (some p)) (by simpa using hi)]
    simp only [lastPort]
    cases hl : lastPort ps i with
    | some q2 => simp
    | none =>
      dsimp only
      by_cases hfd : fd0 = i
      · subst hfd
        simp [List.getElem?_set_eq_of_lt, hi]
      · simp [List.getElem?_set_ne hfd, hfd]

/-! ### Claim theorems -/

/-- C2: command resolution assigns exactly one kind in strict priority
order: `definedFunction` (the spec's UserFunction) whenever `fn-<name>`
resolves to a closure-typed value, regardless of the registries;
otherwise `builtinSpecial` with its handle attached whenever the name
is registered as a builtin special (regardless of the function
registry); otherwise `builtinFunction` with its handle; otherwise
`external`.  In particular a name that is both a builtin function and
bound as `fn-<name>` to a closure resolves to UserFunction, and a name
registered as both builtin special and builtin function resolves to
BuiltinSpecial. -/
theorem resolveCommand_priority (R : Registries) (st : CState)
    (name : String) :
    ((ResolveVar ("fn-" ++ name) st).1 = some VType.closureT →
      (resolveCommand R name st).1.commandType =
        CommandType.definedFunction) ∧
    ((ResolveVar ("fn-" ++ name) st).1 ≠ some VType.closureT →
      (∀ b, assocLookup R.builtinSpecials name = some b →
        (resolveCommand R name st).1.commandType =
          CommandType.builtinSpecial ∧
        (resolveCommand R name st).1.builtinSpecial = some b) ∧
      (assocLookup R.builtinSpecials name = none →
        (∀ b, assocLookup R.builtinFuncs name = some b →
          (resolveCommand R name st).1.commandType =
            CommandType.builtinFunction ∧
          (resolveCommand R name st).1.builtinFunc = some b) ∧
        (assocLookup R.builtinFuncs name = none →
          (resolveCommand R name st).1.commandType =
            CommandType.external))) := by
  cases hr : ResolveVar ("fn-" ++ name) st with
  | mk r st2 =>
    refine ⟨fun hcl => ?_, fun hncl => ⟨fun b hb => ?_, fun hbs => ⟨fun b hb => ?_, fun hbf => ?_⟩⟩⟩
    · have hr2 : r = some VType.closureT := hcl
      subst hr2
      simp [resolveCommand, hr]
    · have hr2 : r ≠ some VType.closureT := hncl
      cases r with
      | none => simp [resolveCommand, hr, hb]
      | some t =>
        cases t with
        | closureT => exact absurd rfl hr2
        | stringT => simp [resolveCommand, hr, hb]
        | tableT => simp [resolveCommand, hr, hb]
        | anyT => simp [resolveCommand, hr, hb]
    · have hr2 : r ≠ some VType.closureT := hncl
      cases r with
      | none => simp [resolveCommand, hr, hbs, hb]
      | some t =>
        cases t with
        | closureT => exact absurd rfl hr2
        | stringT => simp [resolveCommand, hr, hbs, hb]
        | tableT => simp [resolveCommand, hr, hbs, hb]
        | anyT => simp [resolveCommand, hr, hbs, hb]
    · have hr2 : r ≠ some VType.closureT := hncl
      cases r with
      | none => simp [resolveCommand, hr, hbs, hbf]
      | some t =>
        cases t with
        | closureT => exact absurd rfl hr2
        | stringT => simp [resolveCommand, hr, hbs, hbf]
        | tableT => simp [resolveCommand, hr, hbs, hbf]
        | anyT => simp [resolveCommand, hr, hbs, hbf]

/-- C2 witness: with `c2R` (where `s` is registered both as builtin
special and builtin function, and `f` as a builtin function) and
`fn-f` bound to a closure, `f` resolves as a defined function and `s`
as the builtin special with its handle. -/
theorem resolveCommand_priority_witness :
    (resolveCommand c2R "f" c2St).1.commandType =
      CommandType.definedFunction ∧
    (resolveCommand c2R "s" c2St).1.commandType =
      CommandType.builtinSpecial ∧
    (resolveCommand c2R "s" c2St).1.builtinSpecial =
      some (.plain "sp") :=
  ⟨(resolveCommand_priority c2R c2St "f").1 (by decide),
   ((resolveCommand_priority c2R c2St "s").2 (by decide)).1
      (.plain "sp") (by decide) |>.1,
   ((resolveCommand_priority c2R c2St "s").2 (by decide)).1
      (.plain "sp") (by decide) |>.2⟩

/-- C10: resolving a command name calls `ResolveVar` on `fn-<name>`
unconditionally, so whenever a binding for `fn-<name>` exists in a
frame strictly below the innermost one (depth `d > 0`), the name
`fn-<name>` is recorded in the capture tracker with its bound type —
even when that type is not closure-typed, in which case resolution
falls through to a kind other than UserFunction. -/
theorem resolveCommand_capture_side_effect (R : Registries)
    (st : CState) (name : String) (d : Nat) (t : VType)
    (h : lookupScopes st.scopes ("fn-" ++ name) = some (d, t))
    (hd : 0 < d) :
    frameLookup (resolveCommand R name st).2.enclosed ("fn-" ++ name) =
      some t ∧
    (t ≠ VType.closureT →
      (resolveCommand R name st).1.commandType ≠
        CommandType.definedFunction) := by
  have h2 : ResolveVar ("fn-" ++ name) st =
      (some t,
       { st with
          enclosed := frameInsert st.enclosed ("fn-" ++ name) t }) := by
    simp [ResolveVar, h, hd]
  constructor
  · rw [resolveCommand_snd, h2]
    simp [frameLookup_frameInsert]
  · intro ht
    cases t with
    | closureT => exact absurd rfl ht
    | stringT =>
      cases hs : assocLookup R.builtinSpecials name <;>
        cases hf : assocLookup R.builtinFuncs name <;>
        simp [resolveCommand, h2, hs, hf]
    | tableT =>
      cases hs : assocLookup R.builtinSpecials name <;>
        cases hf : assocLookup R.builtinFuncs name <;>
        simp [resolveCommand, h2, hs, hf]
    | anyT =>
      cases hs : assocLookup R.builtinSpecials name <;>
        cases hf : assocLookup R.builtinFuncs name <;>
        simp [resolveCommand, h2, hs, hf]

/-- C10 witness: `fn-foo` bound to a string-typed (non-closure) value
one frame below the innermost one is captured by resolving command
`foo`, which itself resolves to a non-UserFunction kind. -/
theorem resolveCommand_capture_side_effect_witness :
    frameLookup (resolveCommand R0 "foo" c10St).2.enclosed "fn-foo" =
      some VType.stringT ∧
    (resolveCommand R0 "foo" c10St).1.commandType ≠
      CommandType.definedFunction :=
  ⟨(resolveCommand_capture_side_effect R0 c10St "foo" 1 VType.stringT
      (by decide) (by decide)).1,
   (resolveCommand_capture_side_effect R0 c10St "foo" 1 VType.stringT
      (by decide) (by decide)).2 (by decide)⟩

/-- C9: when a form's redirections name the same descriptor more than
once, the redirection loop still compiles every redirection in source
order — it behaves exactly like compiling the full list sequentially
(`compileRedirList`: same errors, same final compile state, so every
redirection can still raise errors and record captures) and then
writing each (fd, port op) pair into the table in order — and the
resulting table slot of every in-range descriptor holds the port op of
the *last* redirection naming it, earlier ones being overwritten. -/
theorem compileRedirs_all_compiled_last_wins (R : Registries)
    (rds : List Redir) (tbl : List (Option PortOp)) (st : CState) :
    (∀ e, compileRedirList R rds st = .error e →
      compileRedirs R rds tbl st = .error e) ∧
    (∀ ops st', compileRedirList R rds st = .ok (ops, st') →
      compileRedirs R rds tbl st =
        .ok (applyPorts tbl ((rds.map Redir.fd).zip ops), st') ∧
      ∀ i, i < tbl.length →
        (applyPorts tbl ((rds.map Redir.fd).zip ops))[i]? =
          match lastPort ((rds.map Redir.fd).zip ops) i with
          | some p => some (some p)
          | none => tbl[i]?) := by
  constructor
  · intro e he
    rw [compileRedirs_as_list, he]
  · intro ops st' hok
    refine ⟨by rw [compileRedirs_as_list, hok], fun i hi => ?_⟩
    exact applyPorts_last _ tbl i hi

/-- C9 witness: two redirections both naming fd 1 (close, then
fd-duplicate): slot 1 of the table holds the later fd-duplicating
port op. -/
theorem compileRedirs_all_compiled_last_wins_witness :
    compileRedirs R0 c9Rds [none, none] st0 =
      .ok ([none, some (PortOp.fdR 5)], st0) ∧
    (applyPorts [none, none] ((c9Rds.map Redir.fd).zip
        [PortOp.closeR, PortOp.fdR 5]))[1]? =
      some (some (PortOp.fdR 5)) := by
  have h := (compileRedirs_all_compiled_last_wins R0 c9Rds
      [none, none] st0).2 [PortOp.closeR, PortOp.fdR 5] st0 (by rfl)
  exact ⟨h.1, (h.2 1 (by decide)).trans (by rfl)⟩

/-- C8: a compound word with a non-`NoSigil` sigil compiles to a
channel capture around a one-stage pipeline whose single form invokes
the command named by the sigil character — classified through
`resolveCommand` — with the compound's concatenated value as its
argument list; with the no-sigil marker it compiles to the plain
positional concatenation of its sub-expressions' values. -/
theorem compileCompound_sigil (R : Registries) (pos : Nat)
    (sigil : Char) (nodes : List SubscriptNode) (st : CState)
    (ops : List ValuesOp) (st1 : CState)
    (h : compileSubscripts R nodes st = .ok (ops, st1)) :
    (sigil ≠ NoSigil →
      compileCompound R (.mk pos sigil nodes) st = .ok
        (.chanCapture (.pipeline
          [.form (.str (String.singleton sigil))
            (some (.compound ops)) []
            (resolveCommand R (String.singleton sigil) st1).1 pos] pos),
         (resolveCommand R (String.singleton sigil) st1).2)) ∧
    (sigil = NoSigil →
      compileCompound R (.mk pos sigil nodes) st =
        .ok (.compound ops, st1)) := by
  constructor
  · intro hs
    simp only [compileCompound]
    rw [h]
    dsimp only
    rw [if_neg hs]
  · intro hs
    simp only [compileCompound]
    rw [h]
    dsimp only
    rw [if_pos hs]

/-- C8 witness: `@foo` compiles to the channel-captured implicit
pipeline invoking command `@`, while the unsigiled `foo` compiles to
the plain concatenation. -/
theorem compileCompound_sigil_witness :
    compileCompound R0 (.mk 0 (Char.ofNat 64) c8Nodes) st0 = .ok
      (.chanCapture (.pipeline
        [.form (.str (String.singleton (Char.ofNat 64)))
          (some (.compound [.str "foo"])) []
          (resolveCommand R0 (String.singleton (Char.ofNat 64)) st0).1 0]
        0),
       (resolveCommand R0 (String.singleton (Char.ofNat 64)) st0).2) ∧
    compileCompound R0 (.mk 0 NoSigil c8Nodes) st0 =
      .ok (.compound [.str "foo"], st0) :=
  ⟨(compileCompound_sigil R0 0 (Char.ofNat 64) c8Nodes st0
      [.str "foo"] st0 (by rfl)).1 (by decide),
   (compileCompound_sigil R0 0 NoSigil c8Nodes st0
      [.str "foo"] st0 (by rfl)).2 rfl⟩

/-- C6: the port table compiled for a form has length (max explicitly
redirected fd + 1), and 0 when the form has no redirections; every
in-range index named by no redirection holds the no-override
placeholder (Go's nil port op, `none` here) rather than being
absent. -/
theorem compileForm_port_table (R : Registries) (fn : FormNode)
    (st : CState) (cmdOp : ValuesOp) (tlist : Option ValuesOp)
    (ports : List (Option PortOp)) (res : CommandResolution)
    (fpos : Nat) (st' : CState)
    (hc : compileForm R fn st = .ok (.form cmdOp tlist ports res fpos, st')) :
    ports.length =
      (if fn.redirs.isEmpty then 0 else maxExplicitFd fn.redirs + 1) ∧
    ∀ i, i < ports.length → (∀ rd ∈ fn.redirs, rd.fd ≠ i) →
      ports[i]? = some none := by
  obtain ⟨pos, cmdC, args, redirs⟩ := fn
  obtain ⟨cpos, csigil, cnodes⟩ := cmdC
  cases cnodes with
  | nil => simp [compileForm] at hc
  | cons s rest =>
  obtain ⟨left, right⟩ := s
  cases right with
  | some rc => simp [compileForm] at hc
  | none =>
  cases rest with
  | cons s2 rest2 => simp [compileForm] at hc
  | nil =>
    simp only [compileForm] at hc
    cases h1 : compilePrimary R left st with
    | error e => rw [h1] at hc; simp at hc
    | ok v =>
      obtain ⟨cmdOp1, st1⟩ := v
      rw [h1] at hc; dsimp only at hc
      cases h2 : resolveFormCommand R left cpos st1 with
      | error e => rw [h2] at hc; simp at hc
      | ok w =>
        obtain ⟨resolution, st2⟩ := w
        rw [h2] at hc; dsimp only at hc
        cases h3 : compileRedirs R redirs
            (List.replicate (nportsOf redirs) none) st2 with
        | error e => rw [h3] at hc; simp at hc
        | ok x =>
          obtain ⟨ports0, st3⟩ := x
          rw [h3] at hc; dsimp only at hc
          have hports : ports0 = ports := by
            by_cases hb : resolution.commandType = .builtinSpecial
            · rw [if_pos hb] at hc
              cases h4 : resolution.builtinSpecial with
              | none => rw [h4] at hc; simp at hc
              | some bi =>
                rw [h4] at hc; dsimp only at hc
                cases h5 : specialCompile bi
                    (.mk pos (.mk cpos csigil [SubscriptNode.mk left none])
                      args redirs) st3 with
                | error e => rw [h5] at hc; simp at hc
                | ok y =>
                  obtain ⟨sop, st4⟩ := y
                  rw [h5] at hc
                  simp only [Except.ok.injEq, Prod.mk.injEq,
                    StateUpdatesOp.form.injEq] at hc
                  exact hc.1.2.2.1
            · rw [if_neg hb] at hc
              cases h6 : compileSpaced R args st3 with
              | error e => rw [h6] at hc; simp at hc
              | ok y =>
                obtain ⟨tl, st4⟩ := y
                rw [h6] at hc
                simp only [Except.ok.injEq, Prod.mk.injEq,
                  StateUpdatesOp.form.injEq] at hc
                exact hc.1.2.2.1
          subst hports
          have hlen : ports0.length = nportsOf redirs := by
            have := compileRedirs_length R redirs
              (List.replicate (nportsOf redirs) none) st2 ports0 st3 h3
            simpa using this
          constructor
          · rw [hlen, nportsOf_eq]
            rfl
          · intro i hi hno
            have hun := compileRedirs_untouched R redirs
              (List.replicate (nportsOf redirs) none) st2 ports0 st3 i h3
              (by simpa [FormNode.redirs] using hno)
            rw [hun, List.getElem?_replicate, if_pos (by rw [← hlen]; exact hi)]

/-- C6 witness: a form with a single redirection on fd 2 only yields a
port table of length 3 whose slots 0 and 1 hold the nil placeholder. -/
theorem compileForm_port_table_witness :
    ([none, none, some PortOp.closeR] : List (Option PortOp)).length = 3 ∧
    ([none, none, some PortOp.closeR] : List (Option PortOp))[0]? =
      some none ∧
    ([none, none, some PortOp.closeR] : List (Option PortOp))[1]? =
      some none := by
  have h := compileForm_port_table R0 c6Form st0 (.str "c")
    (some (.spaced [])) [none, none, some PortOp.closeR]
    { commandType := .external } 0 st0 (by rfl)
  exact ⟨h.1.trans (by rfl),
    h.2 0 (by decide) (by decide),
    h.2 1 (by decide) (by decide)⟩

/-- C5: an unrecognized primary-node kind or a malformed redirection
variant terminates compilation unconditionally with an internal panic
(`crashed`), for every registry, diagnostic context and root scope; it
is not swallowed and not converted into the user-facing error value
(`userErr`) that `Compile` returns for user errors. -/
theorem compile_internal_panics (R : Registries) (name text : String)
    (scope : Frame) (typ pos rp fd : Nat) :
    Compile R name text (c5BadPrimProg typ pos) scope =
      .crashed ("bad PrimaryNode type " ++ toString typ) ∧
    Compile R name text (c5BadRedirProg rp fd) scope =
      .crashed "bad Redir type" := by
  constructor
  · simp [Compile, compileChunk, compilePipelines, compilePipeline,
      compileForms, compileForm, compilePrimary, c5BadPrimProg,
      chunkOfForms]
  · cases hrc : resolveCommand R "c" ⟨name, text, [scope], []⟩ with
    | mk cr st2 =>
      have hred : compileRedirs R [Redir.badRedir rp fd]
          (List.replicate (nportsOf [Redir.badRedir rp fd]) none) st2 =
          .error (.internalPanic "bad Redir type") := by
        simp [compileRedirs, compileRedir]
      simp [Compile, compileChunk, compilePipelines, compilePipeline,
        compileForms, compileForm, compilePrimary, resolveFormCommand,
        c5BadRedirProg, chunkOfForms, simpleForm, word, hrc, hred]

/-- C7: compiling a reference to a variable bound in no frame fails
with the user error `undefined variable $<name>` carrying the compile
call's name and text and the byte offset of the reference, and this
single error is what the top-level `Compile` returns — the second
pipeline of the chunk (which would crash compilation with an internal
panic if reached) is never compiled. -/
theorem compile_undefined_variable (name text : String) (scope : Frame)
    (vname : String) (pos : Nat)
    (h : frameLookup scope vname = none) :
    Compile R0 name text (c7Prog vname pos) scope =
      .userErr ⟨name, text, pos, "undefined variable $" ++ vname⟩ := by
  cases hfc : frameLookup scope "fn-c" with
  | none =>
    simp [Compile, compileChunk, compilePipelines, compilePipeline,
      compileForms, compileForm, compilePrimary, resolveFormCommand,
      resolveCommand, ResolveVar, lookupScopes, compileRedirs,
      compileSpaced, compileCompounds, compileCompound,
      compileSubscripts, compileSubscript, makeVar, mustResolveVar,
      errorf, c7Prog, chunkOfForms, simpleForm, word, varWord, primWord,
      assocLookup, R0, h, hfc]
  | some t =>
    cases t <;>
      simp [Compile, compileChunk, compilePipelines, compilePipeline,
        compileForms, compileForm, compilePrimary, resolveFormCommand,
        resolveCommand, ResolveVar, lookupScopes, compileRedirs,
        compileSpaced, compileCompounds, compileCompound,
        compileSubscripts, compileSubscript, makeVar, mustResolveVar,
        errorf, c7Prog, chunkOfForms, simpleForm, word, varWord,
        primWord, assocLookup, R0, h, hfc]

/-- C7 witness: with an empty root scope, `$y` at offset 5 fails with
the contextual undefined-variable error. -/
theorem compile_undefined_variable_witness :
    Compile R0 "nm" "tx" (c7Prog "y" 5) [] =
      .userErr ⟨"nm", "tx", 5, "undefined variable $y"⟩ :=
  compile_undefined_variable "nm" "tx" [] "y" 5 (by rfl)

/-- C3: for the doubly-nested program `c { c { c $x } }` with `x`
bound (with any type `t`) only in the root scope, both the inner and
the middle closure's CaptureSets contain `x`; in the variant
`c { var x; c { c $x } }` where the middle closure binds `x` in its
own frame before the inner closure, the inner closure captures `x`
(with the locally bound type) but the middle closure's CaptureSet does
not contain it. -/
theorem transitive_capture (t : VType) :
    ((topClosure (Compile R0 "n" "s" c3ProgA [("x", t)])).map Prod.snd =
      some [("x", t)]) ∧
    (((topClosure (Compile R0 "n" "s" c3ProgA [("x", t)])).bind
        (fun p => argClosure p.1 0 0)).map Prod.snd = some [("x", t)]) ∧
    ((topClosure (Compile Rvar "n" "s" c3ProgB [("x", t)])).map
        Prod.snd = some []) ∧
    (((topClosure (Compile Rvar "n" "s" c3ProgB [("x", t)])).bind
        (fun p => argClosure p.1 1 0)).map Prod.snd =
      some [("x", VType.stringT)]) :=
  ⟨rfl, rfl, rfl, rfl⟩

/-- C4: in `c { c $x; var x }` (reference to the enclosing `x`
precedes the local bind) the closure's CaptureSet contains `x`; in
`c { var x; c $x }` (local bind precedes the reference, so the
reference resolves in the innermost frame) it does not. -/
theorem capture_reference_order (t : VType) :
    ((topClosure (Compile Rvar "n" "s" c4ProgA [("x", t)])).map
        Prod.snd = some [("x", t)]) ∧
    ((topClosure (Compile Rvar "n" "s" c4ProgB [("x", t)])).map
        Prod.snd = some []) :=
  ⟨rfl, rfl⟩

/-- C1 counterexample: in `c { c $x { } }` with `x` bound in the root
scope, the outer closure's body references `$x` (recording `x` in the
capture tracker) before the empty inner closure `{ }` is compiled.
The inner closure's body is empty — no name whatsoever is resolved
during its compilation — yet its CaptureSet comes out as
`[("x", stringT)]`: the tracker is not reset when the inner closure's
compilation begins, so a name already captured by the enclosing
compilation unit does appear in the inner closure's CaptureSet,
contradicting the claim. -/
theorem closure_capture_set_exactness_counterexample :
    ((topClosure (Compile R0 "n" "s" c1Prog
        [("x", VType.stringT)])).bind
      (fun p => argClosure p.1 0 1)) =
      some ([], [("x", VType.stringT)]) := rfl

/-- C1 (amended): the capture tracker is not reset when a closure's
compilation begins, so the CaptureSet handed out for a closure also
contains the names already captured by the enclosing compilation unit
before the closure's compilation began; provided the closure's body
contains no nested closure literal (a nested closure steals and only
conditionally returns the tracker's contents), every name present in
the tracker at entry is present in the closure's CaptureSet. -/
theorem closure_capture_keeps_prior_captures (R : Registries)
    (cn : ChunkNode) (st : CState) (op : ValuesOp) (enc : Frame)
    (st' : CState) (hcf : chunkCF cn = true)
    (hc : compileClosure R cn st = .ok ((op, enc), st')) :
    ∀ n, (frameLookup st.enclosed n).isSome = true →
      (frameLookup enc n).isSome = true := by
  obtain ⟨pos, nodes⟩ := cn
  simp only [compileClosure] at hc
  cases h1 : compilePipelines R nodes (pushScope st) with
  | error e => rw [h1] at hc; simp at hc
  | ok v =>
    obtain ⟨ops1, st1⟩ := v
    rw [h1] at hc
    simp only [Except.ok.injEq, Prod.mk.injEq, ValuesOp.closure.injEq]
      at hc
    have henc : st1.enclosed = enc := hc.1.2
    have hmono := monoPipes R nodes (pushScope st) ops1 st1
      (by simpa [chunkCF] using hcf) h1
    intro n hn
    rw [← henc]
    exact hmono n hn

/-- C1 amended-claim witness: compiling an empty (hence closure-free)
closure body in a state whose tracker already holds `x` yields a
CaptureSet still containing `x`. -/
theorem closure_capture_keeps_prior_captures_witness :
    (frameLookup [("x", VType.stringT)] "x").isSome = true :=
  closure_capture_keeps_prior_captures R0 (.mk 0 [])
    ⟨"n", "t", [[]], [("x", VType.stringT)]⟩
    (.closure [] [("x", VType.stringT)]) [("x", VType.stringT)]
    ⟨"n", "t", [[]], []⟩ (by rfl) (by rfl) "x" (by rfl)

end ElvishEval
